import Mathlib

/-!
Verification of the CSS Grid layout designer core.

The development shallowly embeds the repository's source modules:
* the selection geometry utilities (`cellKey`-based cell sets,
  `isRectangularSelection`, `expandToBoundingBox`, `splitIntoRectangles`),
* the model types and defaults (`GridCell`, `TrackSize`, `GridDefinition`,
  `GridChild`, `BreakpointConfig`, `LayoutState`),
* the layout state engine (`useGridState`: history stacks, selection commit,
  resize, delete, undo/redo, export/import), rendered as a pure state
  machine over an explicit `EngineState` record,
* the code generator's `toClassName` and `generateTemplateAreas`.

JavaScript numbers appearing as grid coordinates and counts are embedded as
`Nat` (the source uses zero-based nonnegative indices); resize deltas are
`Int`.  `JSON.parse`/`JSON.stringify` are embedded through an explicit
`Json` value type; a parse failure is the `none` input of `importLayout`.
-/

namespace CssGrid

/-- A single grid cell identified by row and column index (0-based).
Source: `src/types/grid.ts`, `GridCell`.  Cell identity in the source is the
string key `"row,column"` (`cellKey`), which coincides with structural
equality of the pair. -/
structure GridCell where
  row : Nat
  column : Nat
deriving DecidableEq, Repr

/-! ### Minimum / maximum of a list of naturals

The source computes `Math.min(...rows)` / `Math.max(...rows)` over the
(nonempty) coordinate lists; `listMin` / `listMax` embed that fold. -/

/-- `Math.min(...l)` over a nonempty list (0 for the empty list, which the
source never passes). -/
def listMin : List Nat → Nat
  | [] => 0
  | x :: xs => xs.foldl Nat.min x

/-- `Math.max(...l)` over a nonempty list (0 for the empty list, which the
source never passes). -/
def listMax : List Nat → Nat
  | [] => 0
  | x :: xs => xs.foldl Nat.max x

theorem foldl_min_le_init (xs : List Nat) (a : Nat) : xs.foldl Nat.min a ≤ a := by
  induction xs generalizing a with
  | nil => simp
  | cons x xs ih =>
    simp only [List.foldl_cons]
    exact le_trans (ih (Nat.min a x)) (Nat.min_le_left a x)

theorem foldl_min_le_mem {xs : List Nat} {y : Nat} (a : Nat) (h : y ∈ xs) :
    xs.foldl Nat.min a ≤ y := by
  induction xs generalizing a with
  | nil => cases h
  | cons x xs ih =>
    simp only [List.foldl_cons]
    rcases List.mem_cons.mp h with rfl | hy
    · exact le_trans (foldl_min_le_init xs (Nat.min a y)) (Nat.min_le_right a y)
    · exact ih (Nat.min a x) hy

theorem foldl_min_mem (xs : List Nat) (a : Nat) :
    xs.foldl Nat.min a = a ∨ xs.foldl Nat.min a ∈ xs := by
  induction xs generalizing a with
  | nil => exact Or.inl rfl
  | cons x xs ih =>
    simp only [List.foldl_cons]
    rcases ih (Nat.min a x) with h | h
    · rcases Nat.le_total a x with hax | hax
      · exact Or.inl (h.trans (Nat.min_eq_left hax))
      · exact Or.inr (List.mem_cons.mpr (Or.inl (h.trans (Nat.min_eq_right hax))))
    · exact Or.inr (List.mem_cons.mpr (Or.inr h))

theorem le_foldl_max_init (xs : List Nat) (a : Nat) : a ≤ xs.foldl Nat.max a := by
  induction xs generalizing a with
  | nil => simp
  | cons x xs ih =>
    simp only [List.foldl_cons]
    exact le_trans (Nat.le_max_left a x) (ih (Nat.max a x))

theorem mem_le_foldl_max {xs : List Nat} {y : Nat} (a : Nat) (h : y ∈ xs) :
    y ≤ xs.foldl Nat.max a := by
  induction xs generalizing a with
  | nil => cases h
  | cons x xs ih =>
    simp only [List.foldl_cons]
    rcases List.mem_cons.mp h with rfl | hy
    · exact le_trans (Nat.le_max_right a y) (le_foldl_max_init xs (Nat.max a y))
    · exact ih (Nat.max a x) hy

theorem foldl_max_mem (xs : List Nat) (a : Nat) :
    xs.foldl Nat.max a = a ∨ xs.foldl Nat.max a ∈ xs := by
  induction xs generalizing a with
  | nil => exact Or.inl rfl
  | cons x xs ih =>
    simp only [List.foldl_cons]
    rcases ih (Nat.max a x) with h | h
    · rcases Nat.le_total a x with hax | hax
      · exact Or.inr (List.mem_cons.mpr (Or.inl (h.trans (Nat.max_eq_right hax))))
      · exact Or.inl (h.trans (Nat.max_eq_left hax))
    · exact Or.inr (List.mem_cons.mpr (Or.inr h))

theorem listMin_le {l : List Nat} {y : Nat} (h : y ∈ l) : listMin l ≤ y := by
  cases l with
  | nil => cases h
  | cons x xs =>
    rcases List.mem_cons.mp h with rfl | hy
    · exact foldl_min_le_init xs y
    · exact foldl_min_le_mem x hy

theorem listMin_mem {l : List Nat} (h : l ≠ []) : listMin l ∈ l := by
  cases l with
  | nil => exact absurd rfl h
  | cons x xs =>
    rcases foldl_min_mem xs x with h' | h'
    · exact List.mem_cons.mpr (Or.inl h')
    · exact List.mem_cons.mpr (Or.inr h')

theorem le_listMax {l : List Nat} {y : Nat} (h : y ∈ l) : y ≤ listMax l := by
  cases l with
  | nil => cases h
  | cons x xs =>
    rcases List.mem_cons.mp h with rfl | hy
    · exact le_foldl_max_init xs y
    · exact mem_le_foldl_max x hy

theorem listMax_mem {l : List Nat} (h : l ≠ []) : listMax l ∈ l := by
  cases l with
  | nil => exact absurd rfl h
  | cons x xs =>
    rcases foldl_max_mem xs x with h' | h'
    · exact List.mem_cons.mpr (Or.inl h')
    · exact List.mem_cons.mpr (Or.inr h')

theorem listMin_eq_of {l : List Nat} {a : Nat} (hmem : a ∈ l)
    (hle : ∀ y ∈ l, a ≤ y) : listMin l = a :=
  le_antisymm (listMin_le hmem)
    (hle _ (listMin_mem (List.ne_nil_of_mem hmem)))

theorem listMax_eq_of {l : List Nat} {a : Nat} (hmem : a ∈ l)
    (hge : ∀ y ∈ l, y ≤ a) : listMax l = a :=
  le_antisymm (hge _ (listMax_mem (List.ne_nil_of_mem hmem)))
    (le_listMax hmem)

theorem listMin_le_listMax {l : List Nat} (h : l ≠ []) : listMin l ≤ listMax l :=
  le_trans (listMin_le (listMax_mem h)) (le_refl _)

/-! ### Rectangle enumeration

`boxCells r0 r1 c0 c1` enumerates the cells of the inclusive box
`[r0..r1] × [c0..c1]` row-major, exactly as the nested
`for (r = minR; r <= maxR; r++) for (c = minC; c <= maxC; c++)` loops do. -/

/-- Row-major enumeration of the inclusive box `[r0..r1] × [c0..c1]`. -/
def boxCells (r0 r1 c0 c1 : Nat) : List GridCell :=
  (List.range (r1 - r0 + 1)).flatMap fun i =>
    (List.range (c1 - c0 + 1)).map fun j => ⟨r0 + i, c0 + j⟩

theorem length_boxCells (r0 r1 c0 c1 : Nat) :
    (boxCells r0 r1 c0 c1).length = (r1 - r0 + 1) * (c1 - c0 + 1) := by
  simp [boxCells, List.length_flatMap, Function.comp_def, List.sum_replicate,
    smul_eq_mul, Nat.mul_comm]

theorem mem_boxCells {r0 r1 c0 c1 : Nat} (hr : r0 ≤ r1) (hc : c0 ≤ c1)
    {cell : GridCell} :
    cell ∈ boxCells r0 r1 c0 c1 ↔
      r0 ≤ cell.row ∧ cell.row ≤ r1 ∧ c0 ≤ cell.column ∧ cell.column ≤ c1 := by
  obtain ⟨r, c⟩ := cell
  simp only [boxCells, List.mem_flatMap, List.mem_map, List.mem_range]
  constructor
  · rintro ⟨i, hi, j, hj, heq⟩
    injection heq with h5 h6
    omega
  · rintro ⟨h1, h2, h3, h4⟩
    refine ⟨r - r0, by omega, c - c0, by omega, ?_⟩
    simp only [GridCell.mk.injEq]
    omega

theorem nodup_boxCells (r0 r1 c0 c1 : Nat) : (boxCells r0 r1 c0 c1).Nodup := by
  rw [boxCells, List.nodup_flatMap]
  refine ⟨fun i _ => ?_, ?_⟩
  · refine List.Nodup.map ?_ (List.nodup_range _)
    intro a b hab
    simpa using hab
  · refine (List.nodup_range _).imp ?_
    intro i j hij
    simp only [Function.onFun]
    intro x hxi hxj
    simp only [List.mem_map, List.mem_range] at hxi hxj
    obtain ⟨a, _, rfl⟩ := hxi
    obtain ⟨b, _, hb⟩ := hxj
    injection hb with h5 h6
    exact hij (by omega)

/-- Minimum row coordinate of a box enumeration is the box's low row. -/
theorem listMin_rows_boxCells {r0 r1 c0 c1 : Nat} (hr : r0 ≤ r1) (hc : c0 ≤ c1) :
    listMin ((boxCells r0 r1 c0 c1).map GridCell.row) = r0 := by
  apply listMin_eq_of
  · exact List.mem_map.mpr ⟨⟨r0, c0⟩, (mem_boxCells hr hc).mpr (by simp [hr, hc]), rfl⟩
  · intro y hy
    obtain ⟨cell, hcell, rfl⟩ := List.mem_map.mp hy
    exact ((mem_boxCells hr hc).mp hcell).1

theorem listMax_rows_boxCells {r0 r1 c0 c1 : Nat} (hr : r0 ≤ r1) (hc : c0 ≤ c1) :
    listMax ((boxCells r0 r1 c0 c1).map GridCell.row) = r1 := by
  apply listMax_eq_of
  · exact List.mem_map.mpr ⟨⟨r1, c0⟩, (mem_boxCells hr hc).mpr (by simp [hr, hc]), rfl⟩
  · intro y hy
    obtain ⟨cell, hcell, rfl⟩ := List.mem_map.mp hy
    exact ((mem_boxCells hr hc).mp hcell).2.1

theorem listMin_cols_boxCells {r0 r1 c0 c1 : Nat} (hr : r0 ≤ r1) (hc : c0 ≤ c1) :
    listMin ((boxCells r0 r1 c0 c1).map GridCell.column) = c0 := by
  apply listMin_eq_of
  · exact List.mem_map.mpr ⟨⟨r0, c0⟩, (mem_boxCells hr hc).mpr (by simp [hr, hc]), rfl⟩
  · intro y hy
    obtain ⟨cell, hcell, rfl⟩ := List.mem_map.mp hy
    exact ((mem_boxCells hr hc).mp hcell).2.2.1

theorem listMax_cols_boxCells {r0 r1 c0 c1 : Nat} (hr : r0 ≤ r1) (hc : c0 ≤ c1) :
    listMax ((boxCells r0 r1 c0 c1).map GridCell.column) = c1 := by
  apply listMax_eq_of
  · exact List.mem_map.mpr ⟨⟨r0, c1⟩, (mem_boxCells hr hc).mpr (by simp [hr, hc]), rfl⟩
  · intro y hy
    obtain ⟨cell, hcell, rfl⟩ := List.mem_map.mp hy
    exact ((mem_boxCells hr hc).mp hcell).2.2.2

theorem boxCells_ne_nil (r0 r1 c0 c1 : Nat) : boxCells r0 r1 c0 c1 ≠ [] := by
  intro h
  have := length_boxCells r0 r1 c0 c1
  rw [h] at this
  simp only [List.length_nil] at this
  exact Nat.mul_ne_zero (Nat.succ_ne_zero _) (Nat.succ_ne_zero _) this.symm

/-! ### `isRectangularSelection` and `expandToBoundingBox`

Source: `src/utils/selection.ts`. -/

/-- Check if the given cells form a single rectangle: compute min/max row and
column, count cells, compare with `(maxR - minR + 1) * (maxC - minC + 1)`.
Empty input yields `false`. -/
def isRectangularSelection (cells : List GridCell) : Bool :=
  if cells.isEmpty then false
  else
    let rows := cells.map GridCell.row
    let cols := cells.map GridCell.column
    decide (cells.length =
      (listMax rows - listMin rows + 1) * (listMax cols - listMin cols + 1))

/-- Expand a selection to its bounding box
`[minRow..maxRow] × [minCol..maxCol]`; empty input yields the empty list. -/
def expandToBoundingBox (cells : List GridCell) : List GridCell :=
  if cells.isEmpty then []
  else
    let rows := cells.map GridCell.row
    let cols := cells.map GridCell.column
    boxCells (listMin rows) (listMax rows) (listMin cols) (listMax cols)

theorem isRectangularSelection_boxCells {r0 r1 c0 c1 : Nat}
    (hr : r0 ≤ r1) (hc : c0 ≤ c1) :
    isRectangularSelection (boxCells r0 r1 c0 c1) = true := by
  have hne : ¬ ((boxCells r0 r1 c0 c1).isEmpty = true) := by
    simp [List.isEmpty_iff, boxCells_ne_nil r0 r1 c0 c1]
  rw [isRectangularSelection, if_neg hne]
  simp only [listMin_rows_boxCells hr hc, listMax_rows_boxCells hr hc,
    listMin_cols_boxCells hr hc, listMax_cols_boxCells hr hc,
    length_boxCells, decide_eq_true_eq]

theorem expandToBoundingBox_ne_nil_of {cells : List GridCell} (h : cells ≠ []) :
    expandToBoundingBox cells ≠ [] := by
  simp only [expandToBoundingBox, List.isEmpty_iff]
  rw [if_neg h]
  exact boxCells_ne_nil _ _ _ _

/-- Auxiliary: the bounding box of a nonempty cell list has ordered bounds. -/
theorem listMin_le_listMax_map {cells : List GridCell} (h : cells ≠ [])
    (f : GridCell → Nat) :
    listMin (cells.map f) ≤ listMax (cells.map f) :=
  listMin_le_listMax (by simpa using h)

theorem expandToBoundingBox_eq_box {cells : List GridCell} (h : cells ≠ []) :
    expandToBoundingBox cells =
      boxCells (listMin (cells.map GridCell.row)) (listMax (cells.map GridCell.row))
        (listMin (cells.map GridCell.column)) (listMax (cells.map GridCell.column)) := by
  have hemp : ¬ (cells.isEmpty = true) := by simpa [List.isEmpty_iff] using h
  rw [expandToBoundingBox, if_neg hemp]

theorem expandToBoundingBox_idem (cells : List GridCell) :
    expandToBoundingBox (expandToBoundingBox cells) = expandToBoundingBox cells := by
  by_cases h : cells = []
  · subst h; simp [expandToBoundingBox]
  · have hr := listMin_le_listMax_map h GridCell.row
    have hc := listMin_le_listMax_map h GridCell.column
    rw [expandToBoundingBox_eq_box h]
    have hne : boxCells (listMin (cells.map GridCell.row)) (listMax (cells.map GridCell.row))
        (listMin (cells.map GridCell.column)) (listMax (cells.map GridCell.column)) ≠ [] :=
      boxCells_ne_nil _ _ _ _
    rw [expandToBoundingBox_eq_box hne,
      listMin_rows_boxCells hr hc, listMax_rows_boxCells hr hc,
      listMin_cols_boxCells hr hc, listMax_cols_boxCells hr hc]

theorem isRectangularSelection_expand (cells : List GridCell) :
    isRectangularSelection (expandToBoundingBox cells) = !cells.isEmpty := by
  by_cases h : cells = []
  · subst h; simp [expandToBoundingBox, isRectangularSelection]
  · have hr := listMin_le_listMax_map h GridCell.row
    have hc := listMin_le_listMax_map h GridCell.column
    rw [expandToBoundingBox_eq_box h, isRectangularSelection_boxCells hr hc]
    have hemp : cells.isEmpty = false := by simp [List.isEmpty_iff, h]
    rw [hemp]
    rfl

/-- Claim C4.  `expandToBoundingBox` is idempotent (this holds for
the empty list too, where both sides are `[]`); its result is rectangular
exactly when the input is nonempty; and the empty list maps to the empty
list. -/
theorem expandToBoundingBox_idem_rect (cells : List GridCell) :
    expandToBoundingBox (expandToBoundingBox cells) = expandToBoundingBox cells ∧
    isRectangularSelection (expandToBoundingBox cells) = !cells.isEmpty ∧
    expandToBoundingBox ([] : List GridCell) = [] :=
  ⟨expandToBoundingBox_idem cells, isRectangularSelection_expand cells, rfl⟩

/-! ### `splitIntoRectangles`

Source: `src/utils/selection.ts`.  The source keeps the remaining cells in a
JS `Set` of `cellKey` strings iterated in insertion order; the embedding
keeps them as a duplicate-free list in the same order.  The `while` loops
growing a rectangle rightward and downward are embedded with explicit fuel
`set.length`: each successful step of either loop witnesses at least one
further distinct member of the set, so the loop condition always fails
before the fuel runs out and the fueled function agrees with the loop. -/

/-- `cellKeySet`: build the lookup set from a cell list; duplicate cells
collapse (first occurrence kept, insertion order preserved). -/
def dedupFirst : List GridCell → List GridCell
  | [] => []
  | c :: cs => c :: dedupFirst (cs.filter fun x => x ≠ c)
termination_by l => l.length
decreasing_by
  simp only [List.length_cons]
  exact Nat.lt_succ_of_le (List.length_filter_le _ _)

theorem mem_dedupFirst (l : List GridCell) : ∀ x, x ∈ dedupFirst l ↔ x ∈ l := by
  induction l using dedupFirst.induct with
  | case1 => intro x; rw [dedupFirst]
  | case2 c cs ih =>
    intro x
    rw [dedupFirst]
    simp only [List.mem_cons, ih x, List.mem_filter]
    constructor
    · rintro (rfl | ⟨hx, _⟩)
      · exact Or.inl rfl
      · exact Or.inr hx
    · rintro (rfl | hx)
      · exact Or.inl rfl
      · by_cases hxc : x = c
        · exact Or.inl hxc
        · exact Or.inr ⟨hx, by simpa using hxc⟩

/-- The `while (has(r0, cEnd + 1)) cEnd++` loop: extend the rectangle
rightward while the next cell in the seed row is present. -/
def growRightAux (set : List GridCell) (r : Nat) : Nat → Nat → Nat
  | 0, c => c
  | fuel + 1, c =>
    if (⟨r, c + 1⟩ : GridCell) ∈ set then growRightAux set r fuel (c + 1) else c

theorem growRightAux_le (set : List GridCell) (r : Nat) :
    ∀ fuel c, c ≤ growRightAux set r fuel c := by
  intro fuel
  induction fuel with
  | zero => intro c; exact Nat.le_refl c
  | succ fuel ih =>
    intro c
    rw [growRightAux]
    split
    · exact Nat.le_trans (Nat.le_succ c) (ih (c + 1))
    · exact Nat.le_refl c

theorem growRightAux_mem (set : List GridCell) (r : Nat) :
    ∀ fuel c c', c < c' → c' ≤ growRightAux set r fuel c →
      (⟨r, c'⟩ : GridCell) ∈ set := by
  intro fuel
  induction fuel with
  | zero =>
    intro c c' h1 h2
    have h2' : c' ≤ c := h2
    exact absurd (Nat.lt_of_lt_of_le h1 h2') (Nat.lt_irrefl c)
  | succ fuel ih =>
    intro c c' h1 h2
    rw [growRightAux] at h2
    by_cases hmem : (⟨r, c + 1⟩ : GridCell) ∈ set
    · rw [if_pos hmem] at h2
      by_cases hc : c' = c + 1
      · subst hc; exact hmem
      · exact ih (c + 1) c' (by omega) h2
    · rw [if_neg hmem] at h2
      exact absurd (Nat.lt_of_lt_of_le h1 h2) (Nat.lt_irrefl c)

/-- The inner check of the downward loop: every cell of row `r` in columns
`[c0..c1]` is present. -/
def rowFull (set : List GridCell) (r c0 c1 : Nat) : Bool :=
  (List.range (c1 - c0 + 1)).all fun j => decide ((⟨r, c0 + j⟩ : GridCell) ∈ set)

theorem rowFull_mem {set : List GridCell} {r c0 c1 : Nat}
    (h : rowFull set r c0 c1 = true) {c : Nat} (h1 : c0 ≤ c) (h2 : c ≤ c1) :
    (⟨r, c⟩ : GridCell) ∈ set := by
  have := List.all_eq_true.mp h (c - c0) (List.mem_range.mpr (by omega))
  have hc : c0 + (c - c0) = c := by omega
  rw [hc] at this
  exact of_decide_eq_true this

/-- The `rowLoop` of the source: extend the rectangle downward while the
whole next row within `[c0..c1]` is present. -/
def growDownAux (set : List GridCell) (c0 c1 : Nat) : Nat → Nat → Nat
  | 0, r => r
  | fuel + 1, r =>
    if rowFull set (r + 1) c0 c1 then growDownAux set c0 c1 fuel (r + 1) else r

theorem growDownAux_le (set : List GridCell) (c0 c1 : Nat) :
    ∀ fuel r, r ≤ growDownAux set c0 c1 fuel r := by
  intro fuel
  induction fuel with
  | zero => intro r; exact Nat.le_refl r
  | succ fuel ih =>
    intro r
    rw [growDownAux]
    split
    · exact Nat.le_trans (Nat.le_succ r) (ih (r + 1))
    · exact Nat.le_refl r

theorem growDownAux_rowFull (set : List GridCell) (c0 c1 : Nat) :
    ∀ fuel r r', r < r' → r' ≤ growDownAux set c0 c1 fuel r →
      rowFull set r' c0 c1 = true := by
  intro fuel
  induction fuel with
  | zero =>
    intro r r' h1 h2
    have h2' : r' ≤ r := h2
    exact absurd (Nat.lt_of_lt_of_le h1 h2') (Nat.lt_irrefl r)
  | succ fuel ih =>
    intro r r' h1 h2
    rw [growDownAux] at h2
    by_cases hfull : rowFull set (r + 1) c0 c1 = true
    · rw [if_pos hfull] at h2
      by_cases hr : r' = r + 1
      · subst hr; exact hfull
      · exact ih (r + 1) r' (by omega) h2
    · rw [if_neg hfull] at h2
      exact absurd (Nat.lt_of_lt_of_le h1 h2) (Nat.lt_irrefl r)

/-- One iteration of the source's `while (set.size > 0)` loop body: grow a
rectangle from the seed (the first remaining cell) rightward then downward,
and collect the present cells of the resulting box (`if (has(r, c))`). -/
def seedRegion (set : List GridCell) (seed : GridCell) : List GridCell :=
  let cEnd := growRightAux set seed.row set.length seed.column
  let rEnd := growDownAux set seed.column cEnd set.length seed.row
  (boxCells seed.row rEnd seed.column cEnd).filter fun c => decide (c ∈ set)

theorem seedRegion_subset {set : List GridCell} {seed x : GridCell}
    (h : x ∈ seedRegion set seed) : x ∈ set := by
  simp only [seedRegion, List.mem_filter, decide_eq_true_eq] at h
  exact h.2

theorem seedRegion_eq_box {set : List GridCell} {seed : GridCell}
    (h : seed ∈ set) :
    seedRegion set seed =
      boxCells seed.row
        (growDownAux set seed.column
          (growRightAux set seed.row set.length seed.column) set.length seed.row)
        seed.column (growRightAux set seed.row set.length seed.column) := by
  rw [seedRegion]
  apply List.filter_eq_self.mpr
  intro cell hcell
  have hc0 : seed.column ≤ growRightAux set seed.row set.length seed.column :=
    growRightAux_le set seed.row set.length seed.column
  have hr0 : seed.row ≤ growDownAux set seed.column
      (growRightAux set seed.row set.length seed.column) set.length seed.row :=
    growDownAux_le set seed.column _ set.length seed.row
  have hmem := (mem_boxCells hr0 hc0).mp hcell
  apply decide_eq_true
  obtain ⟨r, c⟩ := cell
  simp only at hmem
  rcases Nat.eq_or_lt_of_le hmem.1 with hrow | hrow
  · -- the seed row: the seed itself or growth to the right
    rcases Nat.eq_or_lt_of_le hmem.2.2.1 with hcol | hcol
    · have hseed : seed = (⟨r, c⟩ : GridCell) := by
        cases seed
        simp only [GridCell.mk.injEq]
        exact ⟨hrow.symm ▸ rfl, hcol.symm ▸ rfl⟩
      exact hseed ▸ h
    · have := growRightAux_mem set seed.row set.length seed.column c hcol hmem.2.2.2
      rwa [hrow] at this
  · -- a later row: the whole row is present
    have hfull := growDownAux_rowFull set seed.column
      (growRightAux set seed.row set.length seed.column) set.length seed.row r
      hrow hmem.2.1
    exact rowFull_mem hfull hmem.2.2.1 hmem.2.2.2

theorem seed_mem_seedRegion {set : List GridCell} {seed : GridCell}
    (h : seed ∈ set) : seed ∈ seedRegion set seed := by
  rw [seedRegion_eq_box h]
  have hc0 : seed.column ≤ growRightAux set seed.row set.length seed.column :=
    growRightAux_le set seed.row set.length seed.column
  have hr0 : seed.row ≤ growDownAux set seed.column
      (growRightAux set seed.row set.length seed.column) set.length seed.row :=
    growDownAux_le set seed.column _ set.length seed.row
  exact (mem_boxCells hr0 hc0).mpr ⟨Nat.le_refl _, hr0, Nat.le_refl _, hc0⟩

theorem seedRegion_rect {set : List GridCell} {seed : GridCell}
    (h : seed ∈ set) : isRectangularSelection (seedRegion set seed) = true := by
  rw [seedRegion_eq_box h]
  exact isRectangularSelection_boxCells
    (growDownAux_le set seed.column _ set.length seed.row)
    (growRightAux_le set seed.row set.length seed.column)

theorem seedRegion_nodup {set : List GridCell} {seed : GridCell}
    (h : seed ∈ set) : (seedRegion set seed).Nodup := by
  rw [seedRegion_eq_box h]
  exact nodup_boxCells _ _ _ _

theorem length_filter_lt_of_mem {α : Type} {l : List α} {a : α}
    (p : α → Bool) (ha : a ∈ l) (hpa : p a = false) :
    (l.filter p).length < l.length := by
  induction l with
  | nil => cases ha
  | cons x xs ih =>
    rcases List.mem_cons.mp ha with rfl | hmem
    · simp only [List.filter_cons, hpa, List.length_cons]
      exact Nat.lt_succ_of_le (List.length_filter_le _ _)
    · by_cases hpx : p x
      · simp only [List.filter_cons, hpx, if_true, List.length_cons]
        exact Nat.succ_lt_succ (ih hmem)
      · simp only [List.filter_cons, hpx, if_false, List.length_cons]
        exact Nat.lt_succ_of_lt (ih hmem)

/-- The source's `while (set.size > 0)` loop: repeatedly emit the seed-grown
region and remove its cells (`removeRegion`) from the remaining set. -/
def splitGo : List GridCell → List (List GridCell)
  | [] => []
  | seed :: rest =>
    seedRegion (seed :: rest) seed ::
      splitGo ((seed :: rest).filter fun c =>
        !(decide (c ∈ seedRegion (seed :: rest) seed)))
termination_by l => l.length
decreasing_by
  have hm : ∀ (s : GridCell) (l : List GridCell),
      (!decide (s ∈ seedRegion (s :: l) s)) = false := by
    intro s l
    simp [seed_mem_seedRegion (List.mem_cons_self s l)]
  exact length_filter_lt_of_mem _ (List.mem_cons_self _ _) (hm _ _)

/-- Split a set of cells into one or more rectangular regions; empty input
yields no regions. -/
def splitIntoRectangles (cells : List GridCell) : List (List GridCell) :=
  if cells.isEmpty then [] else splitGo (dedupFirst cells)

theorem splitGo_spec (set : List GridCell) :
    (∀ x, x ∈ (splitGo set).flatten ↔ x ∈ set) ∧
    ((splitGo set).flatten).Nodup ∧
    (∀ rect ∈ splitGo set, isRectangularSelection rect = true) := by
  induction set using splitGo.induct with
  | case1 =>
    rw [splitGo]
    refine ⟨fun x => ?_, List.nodup_nil, fun rect h => absurd h (List.not_mem_nil rect)⟩
    simp
  | case2 seed rest ih =>
    have hseed : seed ∈ seed :: rest := List.mem_cons_self seed rest
    rw [splitGo]
    simp only [List.flatten_cons]
    have hmem_filter : ∀ x, (x ∈ (seed :: rest).filter fun c =>
        !(decide (c ∈ seedRegion (seed :: rest) seed))) ↔
        (x ∈ seed :: rest ∧ ¬ x ∈ seedRegion (seed :: rest) seed) := by
      intro x
      simp [List.mem_filter]
    refine ⟨fun x => ?_, ?_, ?_⟩
    · rw [List.mem_append, ih.1 x, hmem_filter x]
      constructor
      · rintro (hx | ⟨hx, _⟩)
        · exact seedRegion_subset hx
        · exact hx
      · intro hx
        by_cases hreg : x ∈ seedRegion (seed :: rest) seed
        · exact Or.inl hreg
        · exact Or.inr ⟨hx, hreg⟩
    · refine List.Nodup.append (seedRegion_nodup hseed) ih.2.1 ?_
      intro x hx hx'
      have := (hmem_filter x).mp ((ih.1 x).mp hx')
      exact this.2 hx
    · intro rect hrect
      rcases List.mem_cons.mp hrect with rfl | h
      · exact seedRegion_rect hseed
      · exact ih.2.2 rect h

/-- Claim C3.  The rectangles emitted by `splitIntoRectangles` cover exactly
the distinct input cells: their flattened union has the same members as the
input list, contains no cell twice (neither within one rectangle nor across
two), and every emitted rectangle satisfies `isRectangularSelection`. -/
theorem splitIntoRectangles_partition (cells : List GridCell) :
    (∀ x, x ∈ (splitIntoRectangles cells).flatten ↔ x ∈ cells) ∧
    ((splitIntoRectangles cells).flatten).Nodup ∧
    (∀ rect ∈ splitIntoRectangles cells, isRectangularSelection rect = true) := by
  by_cases h : cells.isEmpty = true
  · have hnil : cells = [] := List.isEmpty_iff.mp h
    subst hnil
    refine ⟨fun x => ?_, ?_, fun rect hr => ?_⟩
    · simp [splitIntoRectangles]
    · simp [splitIntoRectangles]
    · simp [splitIntoRectangles] at hr
  · rw [splitIntoRectangles, if_neg h]
    obtain ⟨h1, h2, h3⟩ := splitGo_spec (dedupFirst cells)
    exact ⟨fun x => (h1 x).trans (mem_dedupFirst cells x), h2, h3⟩

/-- Witness for C3 at the L-shaped input `{(0,0),(0,1),(1,0)}`. -/
theorem splitIntoRectangles_partition_witness :
    ((⟨1, 0⟩ : GridCell) ∈
      (splitIntoRectangles [⟨0, 0⟩, ⟨0, 1⟩, ⟨1, 0⟩]).flatten) ∧
    ((splitIntoRectangles [⟨0, 0⟩, ⟨0, 1⟩, ⟨1, 0⟩]).flatten).Nodup :=
  ⟨((splitIntoRectangles_partition [⟨0, 0⟩, ⟨0, 1⟩, ⟨1, 0⟩]).1 ⟨1, 0⟩).mpr
      (by decide),
    (splitIntoRectangles_partition [⟨0, 0⟩, ⟨0, 1⟩, ⟨1, 0⟩]).2.1⟩

/-! ### Model types and defaults

Source: `src/types/grid.ts`. -/

/-- Track size: `fr | px | % | auto | minmax(min, max)`.  The numeric values
are JS numbers used only opaquely here, embedded as `Int`. -/
inductive TrackSize where
  | fr (value : Int)
  | px (value : Int)
  | percent (value : Int)
  | auto
  | minmax (min max : String)
deriving DecidableEq, Repr

/-- `place-items` values; constructors carry a `pi` prefix because `end` is
a reserved word, the CSS strings are `start/end/center/stretch/normal`. -/
inductive PlaceItems where
  | piStart
  | piEnd
  | piCenter
  | piStretch
  | piNormal
deriving DecidableEq, Repr

/-- `justify-self`/`align-self` values (`start/end/center/stretch`). -/
inductive SelfAlign where
  | saStart
  | saEnd
  | saCenter
  | saStretch
deriving DecidableEq, Repr

/-- Grid definition: rows, columns, gaps, alignment. -/
structure GridDefinition where
  rowCount : Nat
  columnCount : Nat
  rowSizes : List TrackSize
  columnSizes : List TrackSize
  gap : Int
  rowGap : Int
  columnGap : Int
  placeItems : PlaceItems
deriving DecidableEq, Repr

/-- A child region: named area with selected cells, optional area name. -/
structure GridChild where
  id : String
  name : String
  cells : List GridCell
  locked : Bool
  areaName : Option String
  justifySelf : Option SelfAlign
  alignSelf : Option SelfAlign
deriving DecidableEq, Repr

/-- Breakpoint identifier. -/
inductive BreakpointId where
  | desktop
  | tablet
  | mobile
deriving DecidableEq, Repr

/-- Per-breakpoint config: grid + children. -/
structure BreakpointConfig where
  grid : GridDefinition
  children : List GridChild
deriving DecidableEq, Repr

/-- The `Record<BreakpointId, BreakpointConfig>` map with its three fixed
keys. -/
structure Breakpoints where
  desktop : BreakpointConfig
  tablet : BreakpointConfig
  mobile : BreakpointConfig
deriving DecidableEq, Repr

/-- Read `breakpoints[bp]`. -/
def bpGet (b : Breakpoints) : BreakpointId → BreakpointConfig
  | .desktop => b.desktop
  | .tablet => b.tablet
  | .mobile => b.mobile

/-- Write `breakpoints[bp]` (the spread `{ ...breakpoints, [bp]: config }`). -/
def bpSet (b : Breakpoints) : BreakpointId → BreakpointConfig → Breakpoints
  | .desktop, c => { b with desktop := c }
  | .tablet, c => { b with tablet := c }
  | .mobile, c => { b with mobile := c }

theorem bpGet_bpSet (b : Breakpoints) (bp : BreakpointId) (c : BreakpointConfig) :
    bpGet (bpSet b bp c) bp = c := by
  cases bp <;> rfl

/-- Full layout state: current breakpoint + configs per breakpoint. -/
structure LayoutState where
  activeBreakpoint : BreakpointId
  breakpoints : Breakpoints
deriving DecidableEq, Repr

/-- Default track size factory: `fr(1)`. -/
def defaultTrackSize : TrackSize := .fr 1

/-- Create default grid definition (3×4 unless overridden). -/
def defaultGridDefinition (rowCount columnCount : Nat) : GridDefinition where
  rowCount := rowCount
  columnCount := columnCount
  rowSizes := List.replicate rowCount defaultTrackSize
  columnSizes := List.replicate columnCount defaultTrackSize
  gap := 16
  rowGap := 16
  columnGap := 16
  placeItems := .piStretch

/-- Create empty breakpoint config. -/
def defaultBreakpointConfig (rowCount columnCount : Nat) : BreakpointConfig where
  grid := defaultGridDefinition rowCount columnCount
  children := []

/-- Create initial layout state. -/
def defaultLayoutState : LayoutState where
  activeBreakpoint := .desktop
  breakpoints :=
    { desktop := defaultBreakpointConfig 3 4
      tablet := defaultBreakpointConfig 3 3
      mobile := defaultBreakpointConfig 4 2 }

/-! ### The layout state engine

Source: `src/hooks/useGridState.ts`.  The hook's React state cells become
the fields of `EngineState`; each exported callback becomes a pure function
`EngineState → EngineState` applying the same sequence of state updates.
`deepCloneState` (a JSON round trip over plain data) is the identity on this
value model.  `generateId()` draws on `Date.now`/`Math.random`; operations
that create a child therefore take the fresh id as an argument. -/

/-- `MAX_HISTORY`. -/
def maxHistory : Nat := 50

/-- The hook's state cells. -/
structure EngineState where
  state : LayoutState
  history : List LayoutState
  historyForward : List LayoutState
  selectedChildId : Option String
  pendingSelection : List GridCell
  isSelecting : Bool
  useNamedAreas : Bool
deriving DecidableEq, Repr

/-- The initial engine state (`useGridState()` with no initial state). -/
def initEngine : EngineState where
  state := defaultLayoutState
  history := []
  historyForward := []
  selectedChildId := none
  pendingSelection := []
  isSelecting := false
  useNamedAreas := false

/-- `pushHistory` on the undo stack: append the snapshot and keep the most
recent `MAX_HISTORY` entries (`[...h, clone(s)].slice(-MAX_HISTORY)`).
The accompanying `setHistoryForward([])` is applied at each call site. -/
def pushHistory (h : List LayoutState) (s : LayoutState) : List LayoutState :=
  let l := h ++ [s]
  l.drop (l.length - maxHistory)

/-- `setActiveBreakpoint`: switch breakpoint, clear selected child and
pending selection; no history push. -/
def setActiveBreakpoint (e : EngineState) (bp : BreakpointId) : EngineState :=
  { e with
    state := { e.state with activeBreakpoint := bp }
    selectedChildId := none
    pendingSelection := [] }

/-- `setGridDefinition`: apply an updater to the active breakpoint's grid;
no history push. -/
def setGridDefinition (e : EngineState) (f : GridDefinition → GridDefinition) :
    EngineState :=
  let s := e.state
  let config := bpGet s.breakpoints s.activeBreakpoint
  let nextConfig := { config with grid := f config.grid }
  { e with
    state :=
      { s with breakpoints := bpSet s.breakpoints s.activeBreakpoint nextConfig } }

/-- `setRows(delta)`: push pre-mutation history, clamp the new row count to
`[1, 20]`, append `fr(1)` tracks when growing or truncate when shrinking,
clear the redo stack. -/
def setRows (e : EngineState) (delta : Int) : EngineState :=
  let s := e.state
  let config := bpGet s.breakpoints s.activeBreakpoint
  let grid := config.grid
  let newCount := (max 1 (min 20 ((grid.rowCount : Int) + delta))).toNat
  let rowSizes :=
    if grid.rowCount < newCount then
      grid.rowSizes ++ List.replicate (newCount - grid.rowCount) (TrackSize.fr 1)
    else grid.rowSizes.take newCount
  let nextConfig :=
    { config with grid := { grid with rowCount := newCount, rowSizes := rowSizes } }
  { e with
    state :=
      { s with breakpoints := bpSet s.breakpoints s.activeBreakpoint nextConfig }
    history := pushHistory e.history s
    historyForward := [] }

/-- `setColumns(delta)`: the column analogue of `setRows`. -/
def setColumns (e : EngineState) (delta : Int) : EngineState :=
  let s := e.state
  let config := bpGet s.breakpoints s.activeBreakpoint
  let grid := config.grid
  let newCount := (max 1 (min 20 ((grid.columnCount : Int) + delta))).toNat
  let columnSizes :=
    if grid.columnCount < newCount then
      grid.columnSizes ++ List.replicate (newCount - grid.columnCount) (TrackSize.fr 1)
    else grid.columnSizes.take newCount
  let nextConfig :=
    { config with grid := { grid with columnCount := newCount, columnSizes := columnSizes } }
  { e with
    state :=
      { s with breakpoints := bpSet s.breakpoints s.activeBreakpoint nextConfig }
    history := pushHistory e.history s
    historyForward := [] }

/-- `startSelection(cell)`. -/
def startSelection (e : EngineState) (cell : GridCell) : EngineState :=
  { e with isSelecting := true, pendingSelection := [cell] }

/-- `addToSelection(cell)`: append only if not already present. -/
def addToSelection (e : EngineState) (cell : GridCell) : EngineState :=
  if cell ∈ e.pendingSelection then e
  else { e with pendingSelection := e.pendingSelection ++ [cell] }

/-- `clearSelection()`. -/
def clearSelection (e : EngineState) : EngineState :=
  { e with isSelecting := false, pendingSelection := [] }

/-- `nextChildName`: the lowest unused `child{n}` name, `n ≥ 1`.  The
source's unbounded `while (used.has(...)) n++` terminates within
`children.length + 1` probes because the used-name set has at most
`children.length` members; the search range reflects that bound, and the
fallback branch is unreachable. -/
def nextChildName (children : List GridChild) : String :=
  let used := children.map (fun c => c.name)
  match (List.range (used.length + 1)).find?
      (fun k => !(used.contains ("child" ++ toString (k + 1)))) with
  | some k => "child" ++ toString (k + 1)
  | none => "child" ++ toString (used.length + 1)

/-- The locked-overlap test of `endSelection`: does the bounding-box
expansion of the pending selection meet a cell of a locked child of the
active breakpoint?  (The source collects the locked cells into a key set
and probes it; membership is the same either way.) -/
def lockedOverlap (e : EngineState) : Bool :=
  let config := bpGet e.state.breakpoints e.state.activeBreakpoint
  (expandToBoundingBox e.pendingSelection).any fun c =>
    config.children.any fun ch => ch.locked && ch.cells.contains c

/-- `endSelection()` with the id produced by `generateId()` passed in:
clear the in-progress flag; with an empty pending selection do nothing
else.  Otherwise expand the pending set to its bounding box, push the
pre-mutation snapshot (the source calls `pushHistory(s)` before the
locked-overlap check), clear the redo stack, and unless the expanded box
overlaps a locked child's cells append a fresh unlocked child to the
active breakpoint; the pending selection is cleared in every case. -/
def endSelection (freshId : String) (e : EngineState) : EngineState :=
  if e.pendingSelection.isEmpty then { e with isSelecting := false }
  else
    let expanded := expandToBoundingBox e.pendingSelection
    let s := e.state
    let config := bpGet s.breakpoints s.activeBreakpoint
    let overlap := lockedOverlap e
    let newState :=
      if overlap then s
      else
        let name := nextChildName config.children
        let child : GridChild :=
          { id := freshId
            name := name
            cells := expanded
            locked := false
            areaName := if e.useNamedAreas then some name else none
            justifySelf := none
            alignSelf := none }
        let nextConfig := { config with children := config.children ++ [child] }
        { s with breakpoints := bpSet s.breakpoints s.activeBreakpoint nextConfig }
    { e with
      isSelecting := false
      pendingSelection := []
      state := newState
      history := pushHistory e.history s
      historyForward := [] }

/-- `deleteChild(id)`: push history, remove the child from the active
breakpoint, clear the redo stack, deselect it if it was selected. -/
def deleteChild (e : EngineState) (id : String) : EngineState :=
  let s := e.state
  let config := bpGet s.breakpoints s.activeBreakpoint
  let nextConfig := { config with children := config.children.filter fun c => c.id ≠ id }
  { e with
    state :=
      { s with breakpoints := bpSet s.breakpoints s.activeBreakpoint nextConfig }
    history := pushHistory e.history s
    historyForward := []
    selectedChildId :=
      if e.selectedChildId = some id then none else e.selectedChildId }

/-- `updateChild(id, updater)`: transform one child by id; no history. -/
def updateChild (e : EngineState) (id : String) (f : GridChild → GridChild) :
    EngineState :=
  let s := e.state
  let config := bpGet s.breakpoints s.activeBreakpoint
  let nextConfig :=
    { config with children := config.children.map fun c =>
        if c.id = id then f c else c }
  { e with
    state :=
      { s with breakpoints := bpSet s.breakpoints s.activeBreakpoint nextConfig } }

/-- `setChildLock(id, locked)`. -/
def setChildLock (e : EngineState) (id : String) (locked : Bool) : EngineState :=
  updateChild e id fun c => { c with locked := locked }

/-- `setChildName(id, name)`: a blank trimmed name keeps the old one. -/
def setChildName (e : EngineState) (id : String) (name : String) : EngineState :=
  updateChild e id fun c =>
    { c with
      name := if name.trim = "" then c.name else name.trim
      areaName :=
        if e.useNamedAreas then
          some (if name.trim = "" then c.name else name.trim)
        else none }

/-- `undo()`: no-op on an empty undo stack; otherwise pop the most recent
snapshot, push the current state on the redo stack, restore the snapshot,
clear the selected child. -/
def undo (e : EngineState) : EngineState :=
  match e.history.getLast? with
  | none => e
  | some prev =>
    { e with
      state := prev
      history := e.history.dropLast
      historyForward := e.state :: e.historyForward
      selectedChildId := none }

/-- `redo()`: the mirror of `undo`, without clearing the selection. -/
def redo (e : EngineState) : EngineState :=
  match e.historyForward with
  | [] => e
  | next :: rest =>
    { e with
      state := next
      historyForward := rest
      history := e.history ++ [e.state] }

/-! ### History-stack lemmas -/

theorem pushHistory_eq (h : List LayoutState) (s : LayoutState) :
    pushHistory h s = h.drop (h.length + 1 - maxHistory) ++ [s] := by
  have h50 : maxHistory = 50 := rfl
  simp only [pushHistory, h50, List.length_append, List.length_cons,
    List.length_nil, Nat.zero_add]
  rw [List.drop_append_eq_append_drop]
  have hz : h.length + 1 - 50 - h.length = 0 := by omega
  rw [hz, List.drop_zero]

theorem pushHistory_getLast (h : List LayoutState) (s : LayoutState) :
    (pushHistory h s).getLast? = some s := by
  rw [pushHistory_eq]
  exact List.getLast?_concat _

theorem pushHistory_length (h : List LayoutState) (s : LayoutState) :
    (pushHistory h s).length = min (h.length + 1) maxHistory := by
  have h50 : maxHistory = 50 := rfl
  simp only [pushHistory, h50, List.length_drop, List.length_append,
    List.length_cons, List.length_nil, Nat.zero_add]
  omega

theorem undo_of_getLast {e : EngineState} {prev : LayoutState}
    (h : e.history.getLast? = some prev) :
    undo e =
      { e with
        state := prev
        history := e.history.dropLast
        historyForward := e.state :: e.historyForward
        selectedChildId := none } := by
  rw [undo, h]

theorem undo_of_empty {e : EngineState} (h : e.history = []) : undo e = e := by
  have hl : e.history.getLast? = none := by rw [h]; rfl
  rw [undo, hl]

theorem redo_of_cons {e : EngineState} {next : LayoutState}
    {rest : List LayoutState} (h : e.historyForward = next :: rest) :
    redo e =
      { e with
        state := next
        historyForward := rest
        history := e.history ++ [e.state] } := by
  rw [redo, h]

/-! ### Claim C10: `endSelection` with an empty pending selection -/

/-- Claim C10.  With an empty pending selection, `endSelection` only clears
the selection-in-progress flag: the layout state, both history stacks, the
selected child and the pending selection are untouched, and no child is
created. -/
theorem endSelection_empty_noop (e : EngineState) (freshId : String)
    (h : e.pendingSelection = []) :
    endSelection freshId e = { e with isSelecting := false } := by
  rw [endSelection, if_pos (by simp [h])]

/-- Witness for C10 at the initial engine state. -/
theorem endSelection_empty_noop_witness :
    endSelection "id0" initEngine = { initEngine with isSelecting := false } :=
  endSelection_empty_noop initEngine "id0" rfl

/-! ### Claim C1: committing a selection over a locked child -/

/-- A locked single-cell child at `(0, 0)` of the desktop breakpoint. -/
def lockedDemoChild : GridChild where
  id := "lock1"
  name := "child1"
  cells := [⟨0, 0⟩]
  locked := true
  areaName := none
  justifySelf := none
  alignSelf := none

def lockedDemoConfig : BreakpointConfig where
  grid := defaultGridDefinition 3 4
  children := [lockedDemoChild]

def lockedDemoState : LayoutState where
  activeBreakpoint := .desktop
  breakpoints := bpSet defaultLayoutState.breakpoints .desktop lockedDemoConfig

/-- An engine state with a locked child at `(0, 0)` and a pending selection
of that same cell, with empty history. -/
def lockedDemoEngine : EngineState :=
  { initEngine with
    state := lockedDemoState
    pendingSelection := [⟨0, 0⟩]
    isSelecting := true }

/-- Counterexample to C1 as stated: committing a selection whose expansion
overlaps a locked child's cells creates no child and leaves the layout
state unchanged, but the undo stack length is NOT unchanged — the source
calls `pushHistory` before the overlap check, so the stack grows from 0
to 1. -/
theorem endSelection_locked_history_cex :
    lockedOverlap lockedDemoEngine = true ∧
    lockedDemoEngine.history.length = 0 ∧
    (endSelection "id1" lockedDemoEngine).history.length = 1 ∧
    (endSelection "id1" lockedDemoEngine).state = lockedDemoEngine.state := by
  decide

/-- Claim C1 as amended.  When the pending selection is nonempty and its
bounding-box expansion overlaps a locked child in the active breakpoint,
`endSelection` creates no child and leaves the layout state unchanged, but
it pushes a snapshot equal to the current state onto the undo stack (whose
length becomes `min (old + 1) 50`) and clears the redo stack; the pending
selection and the in-progress flag are cleared. -/
theorem endSelection_locked_overlap (e : EngineState) (freshId : String)
    (hne : e.pendingSelection ≠ []) (hov : lockedOverlap e = true) :
    (endSelection freshId e).state = e.state ∧
    (endSelection freshId e).history = pushHistory e.history e.state ∧
    (endSelection freshId e).history.length =
      min (e.history.length + 1) maxHistory ∧
    (endSelection freshId e).historyForward = [] ∧
    (endSelection freshId e).pendingSelection = [] ∧
    (endSelection freshId e).isSelecting = false := by
  have hemp : ¬ (e.pendingSelection.isEmpty = true) := fun hc =>
    hne (List.isEmpty_iff.mp hc)
  rw [endSelection, if_neg hemp]
  simp only [hov, if_true]
  refine ⟨?_, ?_, ?_, ?_, ?_, ?_⟩ <;>
    first
      | exact pushHistory_length e.history e.state
      | rfl
      | trivial

/-- Witness for the amended C1 at the concrete locked-child engine state. -/
theorem endSelection_locked_overlap_witness :
    (endSelection "id1" lockedDemoEngine).state = lockedDemoEngine.state ∧
    (endSelection "id1" lockedDemoEngine).historyForward = [] :=
  ⟨(endSelection_locked_overlap lockedDemoEngine "id1" (by decide) (by decide)).1,
    (endSelection_locked_overlap lockedDemoEngine "id1" (by decide)
      (by decide)).2.2.2.1⟩

/-! ### Claim C5: undo / redo around history-pushing mutations

The history-pushing mutations of the engine are `setRows`, `setColumns`,
`deleteChild` and a committing `endSelection` (one with a nonempty pending
selection); `HMutation` enumerates them. -/

inductive HMutation where
  | rows (delta : Int)
  | cols (delta : Int)
  | del (id : String)
  | endSel (freshId : String)
deriving DecidableEq, Repr

def applyHM : HMutation → EngineState → EngineState
  | .rows d, e => setRows e d
  | .cols d, e => setColumns e d
  | .del i, e => deleteChild e i
  | .endSel fid, e => endSelection fid e

/-- Whether the mutation actually pushes history at `e`: `endSelection`
pushes only when the pending selection is nonempty. -/
def hmPushes : HMutation → EngineState → Bool
  | .endSel _, e => !e.pendingSelection.isEmpty
  | _, _ => true

theorem applyHM_history (m : HMutation) (e : EngineState)
    (h : hmPushes m e = true) :
    (applyHM m e).history = pushHistory e.history e.state ∧
    (applyHM m e).historyForward = [] := by
  cases m with
  | rows d => exact ⟨rfl, rfl⟩
  | cols d => exact ⟨rfl, rfl⟩
  | del i => exact ⟨rfl, rfl⟩
  | endSel fid =>
    have hemp : ¬ (e.pendingSelection.isEmpty = true) := by
      simp only [hmPushes, Bool.not_eq_true'] at h
      simp [h]
    show (endSelection fid e).history = _ ∧ (endSelection fid e).historyForward = []
    rw [endSelection, if_neg hemp]
    exact ⟨rfl, rfl⟩

/-- Claim C5.  After any history-pushing mutation, `undo` restores the
pre-mutation layout state exactly and clears the selected child; `redo`
right after that `undo` restores the mutated state; a fresh history-pushing
mutation after `undo` clears the redo stack; and `undo` with an empty undo
stack is a no-op. -/
theorem undo_redo_spec (e : EngineState) (m m' : HMutation)
    (hm : hmPushes m e = true)
    (hm' : hmPushes m' (undo (applyHM m e)) = true) :
    (undo (applyHM m e)).state = e.state ∧
    (undo (applyHM m e)).selectedChildId = none ∧
    (redo (undo (applyHM m e))).state = (applyHM m e).state ∧
    (applyHM m' (undo (applyHM m e))).historyForward = [] ∧
    undo { e with history := [] } = { e with history := [] } := by
  obtain ⟨hh, hf⟩ := applyHM_history m e hm
  have hlast : (applyHM m e).history.getLast? = some e.state := by
    rw [hh]
    exact pushHistory_getLast _ _
  rw [undo_of_getLast hlast]
  refine ⟨rfl, rfl, ?_, ?_, undo_of_empty rfl⟩
  · rw [redo_of_cons rfl]
  · rw [← undo_of_getLast hlast]
    exact (applyHM_history m' (undo (applyHM m e)) hm').2

/-- Witness for C5: a row resize followed by a column resize at the initial
engine state. -/
theorem undo_redo_spec_witness :
    (undo (applyHM (.rows 1) initEngine)).state = initEngine.state ∧
    (redo (undo (applyHM (.rows 1) initEngine))).state =
      (applyHM (.rows 1) initEngine).state ∧
    (applyHM (.cols 1) (undo (applyHM (.rows 1) initEngine))).historyForward
      = [] ∧
    undo { initEngine with history := [] } = { initEngine with history := [] } :=
  ⟨(undo_redo_spec initEngine (.rows 1) (.cols 1) rfl rfl).1,
    (undo_redo_spec initEngine (.rows 1) (.cols 1) rfl rfl).2.2.1,
    (undo_redo_spec initEngine (.rows 1) (.cols 1) rfl rfl).2.2.2.1,
    (undo_redo_spec initEngine (.rows 1) (.cols 1) rfl rfl).2.2.2.2⟩

/-! ### Claim C6: track-count clamping in `setRows` / `setColumns` -/

/-- The active breakpoint's grid. -/
def activeGrid (e : EngineState) : GridDefinition :=
  (bpGet e.state.breakpoints e.state.activeBreakpoint).grid

theorem activeGrid_setRows (e : EngineState) (delta : Int) :
    activeGrid (setRows e delta) =
      { activeGrid e with
        rowCount := (max 1 (min 20 (((activeGrid e).rowCount : Int) + delta))).toNat
        rowSizes :=
          if (activeGrid e).rowCount <
              (max 1 (min 20 (((activeGrid e).rowCount : Int) + delta))).toNat then
            (activeGrid e).rowSizes ++
              List.replicate
                ((max 1 (min 20 (((activeGrid e).rowCount : Int) + delta))).toNat
                  - (activeGrid e).rowCount) (TrackSize.fr 1)
          else (activeGrid e).rowSizes.take
            (max 1 (min 20 (((activeGrid e).rowCount : Int) + delta))).toNat } := by
  simp only [activeGrid, setRows, bpGet_bpSet]

theorem activeGrid_setColumns (e : EngineState) (delta : Int) :
    activeGrid (setColumns e delta) =
      { activeGrid e with
        columnCount := (max 1 (min 20 (((activeGrid e).columnCount : Int) + delta))).toNat
        columnSizes :=
          if (activeGrid e).columnCount <
              (max 1 (min 20 (((activeGrid e).columnCount : Int) + delta))).toNat then
            (activeGrid e).columnSizes ++
              List.replicate
                ((max 1 (min 20 (((activeGrid e).columnCount : Int) + delta))).toNat
                  - (activeGrid e).columnCount) (TrackSize.fr 1)
          else (activeGrid e).columnSizes.take
            (max 1 (min 20 (((activeGrid e).columnCount : Int) + delta))).toNat } := by
  simp only [activeGrid, setColumns, bpGet_bpSet]

theorem clamp_bounds (n : Nat) (delta : Int) :
    1 ≤ (max 1 (min 20 ((n : Int) + delta))).toNat ∧
    (max 1 (min 20 ((n : Int) + delta))).toNat ≤ 20 := by
  constructor <;>
  · rw [Int.max_def, Int.min_def]
    split_ifs <;> omega

/-- A desktop grid already at the 20-row cap. -/
def twentyRowConfig : BreakpointConfig where
  grid := defaultGridDefinition 20 4
  children := []

def twentyRowEngine : EngineState :=
  { initEngine with
    state :=
      { activeBreakpoint := .desktop
        breakpoints := bpSet defaultLayoutState.breakpoints .desktop twentyRowConfig } }

/-- Claim C6.  `setRows` (and symmetrically `setColumns`) clamps the new
track count to `[1, 20]`; growth appends `fr(1)` tracks and shrinking
truncates the size list to the new count (stated by `activeGrid_setRows`
and `activeGrid_setColumns`, restated here through the bounds); resizing a
20-row grid by `+1` keeps 20 rows with a 20-entry size list, and resizing
the default 3-row grid by `-3` clamps at 1 row. -/
theorem setRows_setColumns_clamp (e : EngineState) (delta : Int) :
    (1 ≤ (activeGrid (setRows e delta)).rowCount ∧
      (activeGrid (setRows e delta)).rowCount ≤ 20) ∧
    (1 ≤ (activeGrid (setColumns e delta)).columnCount ∧
      (activeGrid (setColumns e delta)).columnCount ≤ 20) ∧
    (activeGrid (setRows e delta)).rowSizes =
      (if (activeGrid e).rowCount < (activeGrid (setRows e delta)).rowCount then
        (activeGrid e).rowSizes ++
          List.replicate
            ((activeGrid (setRows e delta)).rowCount - (activeGrid e).rowCount)
            (TrackSize.fr 1)
      else (activeGrid e).rowSizes.take (activeGrid (setRows e delta)).rowCount) ∧
    (activeGrid (setColumns e delta)).columnSizes =
      (if (activeGrid e).columnCount <
          (activeGrid (setColumns e delta)).columnCount then
        (activeGrid e).columnSizes ++
          List.replicate
            ((activeGrid (setColumns e delta)).columnCount -
              (activeGrid e).columnCount) (TrackSize.fr 1)
      else (activeGrid e).columnSizes.take
        (activeGrid (setColumns e delta)).columnCount) ∧
    (activeGrid (setRows twentyRowEngine 1)).rowCount = 20 ∧
    (activeGrid (setRows twentyRowEngine 1)).rowSizes.length = 20 ∧
    (activeGrid (setRows initEngine (-3))).rowCount = 1 := by
  refine ⟨?_, ?_, ?_, ?_, by decide, by decide, by decide⟩
  · rw [activeGrid_setRows]
    exact clamp_bounds (activeGrid e).rowCount delta
  · rw [activeGrid_setColumns]
    exact clamp_bounds (activeGrid e).columnCount delta
  · rw [activeGrid_setRows]
  · rw [activeGrid_setColumns]

/-! ### JSON values, export and import

Source: `exportLayout` / `importLayout` in `src/hooks/useGridState.ts` and
the `LayoutExport` shape in `src/types/grid.ts`.  `JSON.stringify` /
`JSON.parse` are modelled by an explicit `Json` value type; the text layer
is faithful for this data (every field is plain JSON; `undefined` optional
fields are omitted by `stringify`).  A parse failure — and likewise the
`TypeError` thrown by a property access on a parsed `null`, which the
source's `try` converts into a `false` return — is the `none` /
missing-field case. -/

inductive Json where
  | null
  | bool (b : Bool)
  | num (n : Int)
  | str (s : String)
  | arr (items : List Json)
  | obj (fields : List (String × Json))

/-- Property lookup on an object's field list (first match). -/
def fieldLookup (key : String) : List (String × Json) → Option Json
  | [] => none
  | (k, v) :: rest => if k = key then some v else fieldLookup key rest

/-- `value.key` property access: `none` models `undefined` (including any
access on a non-object, which yields `undefined` or a caught throw). -/
def jsonField : Json → String → Option Json
  | .obj fields, key => fieldLookup key fields
  | _, _ => none

/-- JS truthiness of a JSON value. -/
def jsTruthy : Json → Bool
  | .null => false
  | .bool b => b
  | .num n => n != 0
  | .str s => s != ""
  | .arr _ => true
  | .obj _ => true

def jsTruthyOpt : Option Json → Bool
  | none => false
  | some v => jsTruthy v

/-! Encoding a `LayoutState` the way `JSON.stringify` lays out the source's
objects, and the typed decoding used to re-enter the model after
`JSON.parse`. -/

def bpIdStr : BreakpointId → String
  | .desktop => "desktop"
  | .tablet => "tablet"
  | .mobile => "mobile"

def bpIdOfStr (s : String) : Option BreakpointId :=
  if s = "desktop" then some .desktop
  else if s = "tablet" then some .tablet
  else if s = "mobile" then some .mobile
  else none

def placeItemsStr : PlaceItems → String
  | .piStart => "start"
  | .piEnd => "end"
  | .piCenter => "center"
  | .piStretch => "stretch"
  | .piNormal => "normal"

def placeItemsOfStr (s : String) : Option PlaceItems :=
  if s = "start" then some .piStart
  else if s = "end" then some .piEnd
  else if s = "center" then some .piCenter
  else if s = "stretch" then some .piStretch
  else if s = "normal" then some .piNormal
  else none

def selfAlignStr : SelfAlign → String
  | .saStart => "start"
  | .saEnd => "end"
  | .saCenter => "center"
  | .saStretch => "stretch"

def selfAlignOfStr (s : String) : Option SelfAlign :=
  if s = "start" then some .saStart
  else if s = "end" then some .saEnd
  else if s = "center" then some .saCenter
  else if s = "stretch" then some .saStretch
  else none

def cellToJson (c : GridCell) : Json :=
  .obj [("row", .num c.row), ("column", .num c.column)]

def cellOfJson (j : Json) : Option GridCell :=
  match jsonField j "row", jsonField j "column" with
  | some (.num r), some (.num c) =>
    if 0 ≤ r ∧ 0 ≤ c then some ⟨r.toNat, c.toNat⟩ else none
  | _, _ => none

def trackToJson : TrackSize → Json
  | .fr v => .obj [("type", .str "fr"), ("value", .num v)]
  | .px v => .obj [("type", .str "px"), ("value", .num v)]
  | .percent v => .obj [("type", .str "percent"), ("value", .num v)]
  | .auto => .obj [("type", .str "auto")]
  | .minmax a b => .obj [("type", .str "minmax"), ("min", .str a), ("max", .str b)]

def trackOfJson (j : Json) : Option TrackSize :=
  match jsonField j "type" with
  | some (.str t) =>
    if t = "auto" then some .auto
    else if t = "minmax" then
      match jsonField j "min", jsonField j "max" with
      | some (.str a), some (.str b) => some (.minmax a b)
      | _, _ => none
    else
      match jsonField j "value" with
      | some (.num v) =>
        if t = "fr" then some (.fr v)
        else if t = "px" then some (.px v)
        else if t = "percent" then some (.percent v)
        else none
      | _ => none
  | _ => none

def decodeListWith {α : Type} (dec : Json → Option α) : List Json → Option (List α)
  | [] => some []
  | j :: js =>
    match dec j, decodeListWith dec js with
    | some a, some rest => some (a :: rest)
    | _, _ => none

theorem decodeListWith_map {α : Type} {dec : Json → Option α} {enc : α → Json}
    (h : ∀ a, dec (enc a) = some a) (l : List α) :
    decodeListWith dec (l.map enc) = some l := by
  induction l with
  | nil => rfl
  | cons a as ih => simp [decodeListWith, h a, ih]

def gridToJson (g : GridDefinition) : Json :=
  .obj
    [("rowCount", .num g.rowCount), ("columnCount", .num g.columnCount),
      ("rowSizes", .arr (g.rowSizes.map trackToJson)),
      ("columnSizes", .arr (g.columnSizes.map trackToJson)),
      ("gap", .num g.gap), ("rowGap", .num g.rowGap),
      ("columnGap", .num g.columnGap),
      ("placeItems", .str (placeItemsStr g.placeItems))]

def gridOfJson (j : Json) : Option GridDefinition :=
  match jsonField j "rowCount", jsonField j "columnCount" with
  | some (.num rc), some (.num cc) =>
    if 0 ≤ rc ∧ 0 ≤ cc then
      match jsonField j "rowSizes", jsonField j "columnSizes" with
      | some (.arr rsJ), some (.arr csJ) =>
        match decodeListWith trackOfJson rsJ, decodeListWith trackOfJson csJ with
        | some rowSizes, some columnSizes =>
          match jsonField j "gap", jsonField j "rowGap", jsonField j "columnGap" with
          | some (.num gap), some (.num rowGap), some (.num columnGap) =>
            match jsonField j "placeItems" with
            | some (.str p) =>
              match placeItemsOfStr p with
              | some placeItems =>
                some
                  { rowCount := rc.toNat
                    columnCount := cc.toNat
                    rowSizes := rowSizes
                    columnSizes := columnSizes
                    gap := gap
                    rowGap := rowGap
                    columnGap := columnGap
                    placeItems := placeItems }
              | none => none
            | _ => none
          | _, _, _ => none
        | _, _ => none
      | _, _ => none
    else none
  | _, _ => none

/-- An optional string-valued field: `stringify` omits `undefined`. -/
def optStrField (key : String) : Option String → List (String × Json)
  | none => []
  | some v => [(key, .str v)]

def optSelfField (key : String) : Option SelfAlign → List (String × Json)
  | none => []
  | some v => [(key, .str (selfAlignStr v))]

def childToJson (ch : GridChild) : Json :=
  .obj
    ([("id", .str ch.id), ("name", .str ch.name),
        ("cells", .arr (ch.cells.map cellToJson)),
        ("locked", .bool ch.locked)]
      ++ optStrField "areaName" ch.areaName
      ++ optSelfField "justifySelf" ch.justifySelf
      ++ optSelfField "alignSelf" ch.alignSelf)

def childOfJson (j : Json) : Option GridChild :=
  match jsonField j "id", jsonField j "name" with
  | some (.str cid), some (.str name) =>
    match jsonField j "cells" with
    | some (.arr cellsJ) =>
      match decodeListWith cellOfJson cellsJ with
      | some cells =>
        match jsonField j "locked" with
        | some (.bool locked) =>
          some
            { id := cid
              name := name
              cells := cells
              locked := locked
              areaName :=
                match jsonField j "areaName" with
                | some (.str a) => some a
                | _ => none
              justifySelf :=
                match jsonField j "justifySelf" with
                | some (.str s) => selfAlignOfStr s
                | _ => none
              alignSelf :=
                match jsonField j "alignSelf" with
                | some (.str s) => selfAlignOfStr s
                | _ => none }
        | _ => none
      | none => none
    | _ => none
  | _, _ => none

def configToJson (c : BreakpointConfig) : Json :=
  .obj
    [("grid", gridToJson c.grid),
      ("children", .arr (c.children.map childToJson))]

def configOfJson (j : Json) : Option BreakpointConfig :=
  match jsonField j "grid" with
  | some gj =>
    match gridOfJson gj with
    | some grid =>
      match jsonField j "children" with
      | some (.arr chJ) =>
        match decodeListWith childOfJson chJ with
        | some children => some { grid := grid, children := children }
        | none => none
      | _ => none
    | none => none
  | none => none

def bpsToJson (b : Breakpoints) : Json :=
  .obj
    [("desktop", configToJson b.desktop),
      ("tablet", configToJson b.tablet),
      ("mobile", configToJson b.mobile)]

def bpsOfJson (j : Json) : Option Breakpoints :=
  match jsonField j "desktop", jsonField j "tablet", jsonField j "mobile" with
  | some dj, some tj, some mj =>
    match configOfJson dj, configOfJson tj, configOfJson mj with
    | some d, some t, some m => some { desktop := d, tablet := t, mobile := m }
    | _, _, _ => none
  | _, _, _ => none

def layoutToJson (s : LayoutState) : Json :=
  .obj
    [("activeBreakpoint", .str (bpIdStr s.activeBreakpoint)),
      ("breakpoints", bpsToJson s.breakpoints)]

def layoutOfJson (j : Json) : Option LayoutState :=
  match jsonField j "activeBreakpoint" with
  | some (.str aj) =>
    match bpIdOfStr aj with
    | some activeBreakpoint =>
      match jsonField j "breakpoints" with
      | some bj =>
        match bpsOfJson bj with
        | some breakpoints =>
          some { activeBreakpoint := activeBreakpoint, breakpoints := breakpoints }
        | none => none
      | none => none
    | none => none
  | _ => none

/-! Round-trip lemmas: decoding an encoded value restores it. -/

theorem cellOfJson_toJson (c : GridCell) : cellOfJson (cellToJson c) = some c := by
  cases c with
  | mk r col =>
    simp [cellToJson, cellOfJson, jsonField, fieldLookup, Int.natCast_nonneg]

theorem trackOfJson_toJson (t : TrackSize) : trackOfJson (trackToJson t) = some t := by
  cases t <;> rfl

theorem placeItemsOfStr_str (p : PlaceItems) :
    placeItemsOfStr (placeItemsStr p) = some p := by
  cases p <;> rfl

theorem selfAlignOfStr_str (a : SelfAlign) :
    selfAlignOfStr (selfAlignStr a) = some a := by
  cases a <;> rfl

theorem bpIdOfStr_str (b : BreakpointId) : bpIdOfStr (bpIdStr b) = some b := by
  cases b <;> rfl

theorem gridOfJson_toJson (g : GridDefinition) :
    gridOfJson (gridToJson g) = some g := by
  cases g with
  | mk rc cc rs cs gap rowGap columnGap placeItems =>
    simp [gridToJson, gridOfJson, jsonField, fieldLookup, Int.natCast_nonneg,
      decodeListWith_map trackOfJson_toJson, placeItemsOfStr_str]

theorem childOfJson_toJson (ch : GridChild) :
    childOfJson (childToJson ch) = some ch := by
  cases ch with
  | mk cid name cells locked areaName justifySelf alignSelf =>
    cases areaName <;> cases justifySelf <;> cases alignSelf <;>
      simp [childToJson, childOfJson, jsonField, fieldLookup, optStrField,
        optSelfField, decodeListWith_map cellOfJson_toJson, selfAlignOfStr_str]

theorem configOfJson_toJson (c : BreakpointConfig) :
    configOfJson (configToJson c) = some c := by
  cases c with
  | mk grid children =>
    simp [configToJson, configOfJson, jsonField, fieldLookup,
      gridOfJson_toJson, decodeListWith_map childOfJson_toJson]

theorem bpsOfJson_toJson (b : Breakpoints) : bpsOfJson (bpsToJson b) = some b := by
  cases b with
  | mk d t m =>
    simp [bpsToJson, bpsOfJson, jsonField, fieldLookup, configOfJson_toJson]

theorem layoutOfJson_toJson (s : LayoutState) :
    layoutOfJson (layoutToJson s) = some s := by
  cases s with
  | mk a b =>
    simp [layoutToJson, layoutOfJson, jsonField, fieldLookup, bpIdOfStr_str,
      bpsOfJson_toJson]

/-! ### `exportLayout` and `importLayout` -/

/-- `exportLayout()`: the JSON text
`{ version: 1, layout: deepClone(state), exportedAt: timestamp }`,
modelled as its parsed value. -/
def exportLayout (s : LayoutState) (exportedAt : String) : Json :=
  .obj
    [("version", .num 1), ("layout", layoutToJson s),
      ("exportedAt", .str exportedAt)]

/-- `['desktop', 'tablet', 'mobile'].includes(bp)`. -/
def validBpStr (s : String) : Bool :=
  s == "desktop" || s == "tablet" || s == "mobile"

/-- The accepting tail of `importLayout`: replace the state wholesale,
clear both history stacks and the selected child, report success.  The
source stores the parsed object itself with no validation beyond the three
checks; a passing layout that is not a well-formed `LayoutState` has no
typed representation, so in that (source-unreachable for round trips)
corner the model keeps the previous state fields while still reporting
success. -/
def importSuccess (e : EngineState) (lj : Json) : Bool × EngineState :=
  match layoutOfJson lj with
  | some st =>
    (true,
      { e with
        state := st
        history := []
        historyForward := []
        selectedChildId := none })
  | none =>
    (true,
      { e with
        history := []
        historyForward := []
        selectedChildId := none })

/-- `importLayout(json)`: `none` models text that `JSON.parse` rejects
(the `catch` yields `false`); then `data.version !== 1`, the truthiness of
`data.layout?.breakpoints`, and membership of `data.layout.activeBreakpoint`
in the three known ids are checked in order; any failure reports `false`
with no state change. -/
def importLayout (e : EngineState) (input : Option Json) : Bool × EngineState :=
  match input with
  | none => (false, e)
  | some j =>
    match jsonField j "version", jsonField j "layout" with
    | some (.num v), some lj =>
      if v = 1 then
        if jsTruthyOpt (jsonField lj "breakpoints") then
          match jsonField lj "activeBreakpoint" with
          | some (.str bp) =>
            if validBpStr bp then importSuccess e lj else (false, e)
          | _ => (false, e)
        else (false, e)
      else (false, e)
    | _, _ => (false, e)

theorem validBpStr_bpIdStr (b : BreakpointId) : validBpStr (bpIdStr b) = true := by
  cases b <;> rfl

/-- Claim C2.  Importing the export of the current state succeeds and
restores a layout state equal to the exported one (the `exportedAt`
timestamp is arbitrary and ignored); the history stacks and the selected
child are cleared, as `importLayout` always does on success. -/
theorem importLayout_exportLayout_roundtrip (e : EngineState) (ts : String) :
    importLayout e (some (exportLayout e.state ts)) =
      (true,
        { e with history := [], historyForward := [], selectedChildId := none }) := by
  have h1 : jsonField (exportLayout e.state ts) "version" = some (.num 1) := rfl
  have h2 : jsonField (exportLayout e.state ts) "layout" =
      some (layoutToJson e.state) := rfl
  have h3 : jsTruthyOpt (jsonField (layoutToJson e.state) "breakpoints") = true := rfl
  have h4 : jsonField (layoutToJson e.state) "activeBreakpoint" =
      some (.str (bpIdStr e.state.activeBreakpoint)) := rfl
  simp [importLayout, h1, h2, h3, h4, validBpStr_bpIdStr, importSuccess,
    layoutOfJson_toJson]

/-! ### Claim C7: rejected imports -/

/-- The claim's first rejection condition: the parsed value's `version`
field is the number `1`. -/
def versionIsOne (j : Json) : Bool :=
  match jsonField j "version" with
  | some (.num v) => v == 1
  | _ => false

/-- The rejection conditions enumerated by the claim: unparseable text,
version not 1, no breakpoints map, or an `activeBreakpoint` that is not
one of `desktop`/`tablet`/`mobile`. -/
def importRejects : Option Json → Bool
  | none => true
  | some j =>
    !(versionIsOne j) ||
    (match jsonField j "layout" with
     | none => true
     | some lj =>
       (jsonField lj "breakpoints").isNone ||
       (match jsonField lj "activeBreakpoint" with
        | some (.str bp) => !(validBpStr bp)
        | _ => true))

/-- Claim C7.  Whenever the input text is not valid JSON, or its version
field is not `1`, or it has no breakpoints map, or its `activeBreakpoint`
is not one of the three known ids, `importLayout` returns `false` and
leaves the engine state untouched.  (`importLayout` is a total function of
the model, so no input faults: the source's `try`/`catch` turns any thrown
parse or property-access error into the same `false` result.) -/
theorem importLayout_rejects (e : EngineState) (input : Option Json)
    (h : importRejects input = true) :
    importLayout e input = (false, e) := by
  cases input with
  | none => rfl
  | some j =>
    rw [importLayout]
    cases hv : jsonField j "version" with
    | none => simp [hv]
    | some vj =>
      cases vj
      case num v =>
        cases hl : jsonField j "layout" with
        | none => simp [hv, hl]
        | some lj =>
          simp only [hv, hl]
          by_cases h1 : v = 1
          · subst h1
            rw [if_pos rfl]
            simp only [importRejects, versionIsOne, hv] at h
            simp only [beq_self_eq_true, Bool.not_true, Bool.false_or, hl] at h
            cases hbp : jsonField lj "breakpoints" with
            | none => simp [jsTruthyOpt, hbp]
            | some bj =>
              simp only [hbp, Option.isNone_some, Bool.false_or] at h
              cases hab : jsonField lj "activeBreakpoint" with
              | none =>
                by_cases ht : jsTruthy bj = true <;>
                  simp [jsTruthyOpt, hbp, ht, hab]
              | some abj =>
                cases abj with
                | str bp =>
                  rw [hab] at h
                  have hval : validBpStr bp = false := by simpa using h
                  by_cases ht : jsTruthy bj = true <;>
                    simp [jsTruthyOpt, hbp, ht, hab, hval]
                | null =>
                  by_cases ht : jsTruthy bj = true <;>
                    simp [jsTruthyOpt, hbp, ht, hab]
                | bool b =>
                  by_cases ht : jsTruthy bj = true <;>
                    simp [jsTruthyOpt, hbp, ht, hab]
                | num n =>
                  by_cases ht : jsTruthy bj = true <;>
                    simp [jsTruthyOpt, hbp, ht, hab]
                | arr xs =>
                  by_cases ht : jsTruthy bj = true <;>
                    simp [jsTruthyOpt, hbp, ht, hab]
                | obj fs =>
                  by_cases ht : jsTruthy bj = true <;>
                    simp [jsTruthyOpt, hbp, ht, hab]
          · rw [if_neg h1]
      all_goals simp [hv]

/-- Witness for C7: an export envelope carrying version 2 is rejected and
the engine state is unchanged. -/
theorem importLayout_rejects_witness :
    importRejects (some (Json.obj [("version", Json.num 2)])) = true ∧
    importLayout initEngine (some (Json.obj [("version", Json.num 2)])) =
      (false, initEngine) :=
  ⟨rfl,
    importLayout_rejects initEngine (some (Json.obj [("version", Json.num 2)]))
      rfl⟩

/-! ### Claim C9: the undo stack is bounded by 50 snapshots

`Op` enumerates every state-changing operation the hook exposes, so the
invariant below covers all reachable engine states. -/

inductive Op where
  | opActiveBp (bp : BreakpointId)
  | opGridDef (f : GridDefinition → GridDefinition)
  | opRows (delta : Int)
  | opCols (delta : Int)
  | opStartSel (cell : GridCell)
  | opAddSel (cell : GridCell)
  | opEndSel (freshId : String)
  | opClearSel
  | opDelete (id : String)
  | opUpdate (id : String) (f : GridChild → GridChild)
  | opLock (id : String) (locked : Bool)
  | opRename (id : String) (name : String)
  | opSelect (id : Option String)
  | opNamedAreas (b : Bool)
  | opUndo
  | opRedo
  | opImport (input : Option Json)

def applyOp : Op → EngineState → EngineState
  | .opActiveBp bp, e => setActiveBreakpoint e bp
  | .opGridDef f, e => setGridDefinition e f
  | .opRows d, e => setRows e d
  | .opCols d, e => setColumns e d
  | .opStartSel c, e => startSelection e c
  | .opAddSel c, e => addToSelection e c
  | .opEndSel fid, e => endSelection fid e
  | .opClearSel, e => clearSelection e
  | .opDelete i, e => deleteChild e i
  | .opUpdate i f, e => updateChild e i f
  | .opLock i b, e => setChildLock e i b
  | .opRename i s, e => setChildName e i s
  | .opSelect i, e => { e with selectedChildId := i }
  | .opNamedAreas b, e => { e with useNamedAreas := b }
  | .opUndo, e => undo e
  | .opRedo, e => redo e
  | .opImport input, e => (importLayout e input).2

theorem importLayout_history (e : EngineState) (input : Option Json) :
    ((importLayout e input).2.history = e.history ∧
      (importLayout e input).2.historyForward = e.historyForward) ∨
    ((importLayout e input).2.history = [] ∧
      (importLayout e input).2.historyForward = []) := by
  cases input with
  | none => exact Or.inl ⟨rfl, rfl⟩
  | some j =>
    rw [importLayout]
    repeat' split
    all_goals
      first
        | exact Or.inl ⟨rfl, rfl⟩
        | exact Or.inr ⟨rfl, rfl⟩
        | (unfold importSuccess; split <;> exact Or.inr ⟨rfl, rfl⟩)

/-- Claim C9.  The paired-stack size invariant
`history.length + historyForward.length ≤ 50` holds at the initial state
and is preserved by every engine operation, so the undo stack never holds
more than `MAX_HISTORY = 50` snapshots; and `pushHistory` always keeps the
most recent snapshots, evicting from the front
(`drop (length + 1 - 50)`) when the bound is reached. -/
theorem history_bound_invariant (e : EngineState) (op : Op)
    (h : e.history.length + e.historyForward.length ≤ maxHistory) :
    ((applyOp op e).history.length + (applyOp op e).historyForward.length
        ≤ maxHistory ∧
      (applyOp op e).history.length ≤ maxHistory) ∧
    pushHistory e.history e.state =
      e.history.drop (e.history.length + 1 - maxHistory) ++ [e.state] ∧
    initEngine.history.length + initEngine.historyForward.length
      ≤ maxHistory := by
  refine ⟨?_, pushHistory_eq e.history e.state, by decide⟩
  have h50 : maxHistory = 50 := rfl
  have hpush : ∀ s : LayoutState,
      (pushHistory e.history s).length ≤ maxHistory := fun s => by
    rw [pushHistory_length]
    exact Nat.min_le_right _ _
  have hsame : ∀ e' : EngineState, e'.history = e.history →
      e'.historyForward = e.historyForward →
      e'.history.length + e'.historyForward.length ≤ maxHistory ∧
        e'.history.length ≤ maxHistory := by
    intro e' h1 h2
    rw [h1, h2]
    exact ⟨h, Nat.le_trans (Nat.le_add_right _ _) h⟩
  have hpushed : ∀ e' : EngineState,
      e'.history = pushHistory e.history e.state → e'.historyForward = [] →
      e'.history.length + e'.historyForward.length ≤ maxHistory ∧
        e'.history.length ≤ maxHistory := by
    intro e' h1 h2
    rw [h1, h2]
    simpa using hpush e.state
  cases op with
  | opActiveBp bp => exact hsame _ rfl rfl
  | opGridDef f => exact hsame _ rfl rfl
  | opRows d => exact hpushed _ rfl rfl
  | opCols d => exact hpushed _ rfl rfl
  | opStartSel c => exact hsame _ rfl rfl
  | opAddSel c =>
    show (addToSelection e c).history.length +
        (addToSelection e c).historyForward.length ≤ maxHistory ∧
      (addToSelection e c).history.length ≤ maxHistory
    rw [addToSelection]
    split
    · exact hsame _ rfl rfl
    · exact hsame _ rfl rfl
  | opEndSel fid =>
    show (endSelection fid e).history.length +
        (endSelection fid e).historyForward.length ≤ maxHistory ∧
      (endSelection fid e).history.length ≤ maxHistory
    rw [endSelection]
    split
    · exact hsame _ rfl rfl
    · exact hpushed _ rfl rfl
  | opClearSel => exact hsame _ rfl rfl
  | opDelete i => exact hpushed _ rfl rfl
  | opUpdate i f => exact hsame _ rfl rfl
  | opLock i b => exact hsame _ rfl rfl
  | opRename i s => exact hsame _ rfl rfl
  | opSelect i => exact hsame _ rfl rfl
  | opNamedAreas b => exact hsame _ rfl rfl
  | opUndo =>
    show (undo e).history.length + (undo e).historyForward.length ≤ maxHistory ∧
      (undo e).history.length ≤ maxHistory
    cases hl : e.history.getLast? with
    | none =>
      have hu : undo e = e := by rw [undo, hl]
      rw [hu]
      exact ⟨h, Nat.le_trans (Nat.le_add_right _ _) h⟩
    | some prev =>
      rw [undo_of_getLast hl]
      have hne : e.history ≠ [] := by
        intro hnil
        rw [hnil] at hl
        cases hl
      have hlen : 1 ≤ e.history.length := by
        cases hh : e.history with
        | nil => exact absurd hh hne
        | cons a as => simp
      simp only [List.length_dropLast, List.length_cons]
      rw [h50] at h ⊢
      omega
  | opRedo =>
    show (redo e).history.length + (redo e).historyForward.length ≤ maxHistory ∧
      (redo e).history.length ≤ maxHistory
    cases hf : e.historyForward with
    | nil =>
      have hr : redo e = e := by rw [redo, hf]
      rw [hr]
      exact ⟨h, Nat.le_trans (Nat.le_add_right _ _) h⟩
    | cons next rest =>
      rw [redo_of_cons hf]
      rw [hf] at h
      simp only [List.length_append, List.length_cons, List.length_nil] at h ⊢
      rw [h50] at h ⊢
      omega
  | opImport input =>
    show (importLayout e input).2.history.length +
        (importLayout e input).2.historyForward.length ≤ maxHistory ∧
      (importLayout e input).2.history.length ≤ maxHistory
    rcases importLayout_history e input with ⟨h1, h2⟩ | ⟨h1, h2⟩
    · rw [h1, h2]
      exact ⟨h, Nat.le_trans (Nat.le_add_right _ _) h⟩
    · rw [h1, h2]
      rw [h50]
      simp

/-- Witness for C9: a row resize at the initial engine state. -/
theorem history_bound_invariant_witness :
    (applyOp (.opRows 1) initEngine).history.length +
      (applyOp (.opRows 1) initEngine).historyForward.length ≤ maxHistory ∧
    (applyOp (.opRows 1) initEngine).history.length ≤ maxHistory :=
  (history_bound_invariant initEngine (.opRows 1) (by decide)).1

/-! ### Code generator: `toClassName` and `generateTemplateAreas`

Source: the CSS generation module (`toClassName`,
`generateTemplateAreas`). -/

/-- `replace(/\s+/g, '-')`: each run of whitespace becomes a single
hyphen; the flag records whether the previous character was whitespace. -/
def collapseWsAux : Bool → List Char → List Char
  | _, [] => []
  | inWs, c :: cs =>
    if c.isWhitespace then
      if inWs then collapseWsAux true cs
      else '-' :: collapseWsAux true cs
    else c :: collapseWsAux false cs

def collapseWs (l : List Char) : List Char := collapseWsAux false l

/-- `name.trim()` on the character list: drop whitespace from both ends. -/
def trimChars (l : List Char) : List Char :=
  ((l.dropWhile Char.isWhitespace).reverse.dropWhile Char.isWhitespace).reverse

/-- `toClassName`: `name.trim().replace(/\s+/g, '-') || 'child'` — trim,
collapse whitespace runs to single hyphens, and default a falsy (empty)
result to `"child"`. -/
def toClassName (name : String) : String :=
  let t : String := ⟨collapseWs (trimChars name.toList)⟩
  if t = "" then "child" else t

theorem toClassName_length (s : String) : 1 ≤ (toClassName s).length := by
  simp only [toClassName]
  split
  · decide
  · rename_i ht
    cases hc : collapseWs (trimChars s.toList) with
    | nil =>
      exfalso
      apply ht
      show (⟨collapseWs (trimChars s.toList)⟩ : String) = ""
      rw [hc]
    | cons c cs =>
      simp [String.length]

theorem toClassName_ne_empty (s : String) : toClassName s ≠ "" := by
  intro hc
  have := toClassName_length s
  rw [hc] at this
  simp at this

/-- The matrix write `grid[r][c] = areaName`.  `List.set` ignores an
out-of-range index, where the source would fault on an out-of-bounds row;
the embedding is used on in-range cells. -/
def setCell (m : List (List (Option String))) (r c : Nat) (v : String) :
    List (List (Option String)) :=
  m.set r ((m.getD r []).set c (some v))

/-- `toClassName(ch.areaName ?? ch.name)`: the area name painted for a
child. -/
def resolvedAreaName (ch : GridChild) : String :=
  toClassName (ch.areaName.getD ch.name)

/-- Painting one child's bounding box into the area matrix, with the
source's `if (!areaName) continue` guard kept.  A child with no cells
paints nothing: `Math.min()` of an empty spread gives an empty loop
range in the source. -/
def paintChild (m : List (List (Option String))) (ch : GridChild) :
    List (List (Option String)) :=
  let areaName := resolvedAreaName ch
  if areaName = "" then m
  else if ch.cells.isEmpty then m
  else
    let rows := ch.cells.map GridCell.row
    let cols := ch.cells.map GridCell.column
    (boxCells (listMin rows) (listMax rows) (listMin cols) (listMax cols)).foldl
      (fun acc cell => setCell acc cell.row cell.column areaName) m

/-- `paintChild` with the skip guard removed. -/
def paintChildUnskipped (m : List (List (Option String))) (ch : GridChild) :
    List (List (Option String)) :=
  let areaName := resolvedAreaName ch
  if ch.cells.isEmpty then m
  else
    let rows := ch.cells.map GridCell.row
    let cols := ch.cells.map GridCell.column
    (boxCells (listMin rows) (listMax rows) (listMin cols) (listMax cols)).foldl
      (fun acc cell => setCell acc cell.row cell.column areaName) m

/-- Serialization of the area matrix: cells joined by spaces, each row
quoted, rows joined by a newline and two spaces. -/
def renderAreas (m : List (List (Option String))) : String :=
  String.intercalate "\n  "
    (m.map fun row =>
      "\"" ++ String.intercalate " " (row.map fun c => c.getD ".") ++ "\"")

/-- `generateTemplateAreas(rowCount, columnCount, children)`. -/
def generateTemplateAreas (rowCount columnCount : Nat)
    (children : List GridChild) : String :=
  let grid : List (List (Option String)) :=
    List.replicate rowCount (List.replicate columnCount none)
  renderAreas (children.foldl paintChild grid)

/-- `generateTemplateAreas` with the dead skip branch removed. -/
def generateTemplateAreasUnskipped (rowCount columnCount : Nat)
    (children : List GridChild) : String :=
  let grid : List (List (Option String)) :=
    List.replicate rowCount (List.replicate columnCount none)
  renderAreas (children.foldl paintChildUnskipped grid)

theorem paintChild_eq (m : List (List (Option String))) (ch : GridChild) :
    paintChild m ch = paintChildUnskipped m ch := by
  have hne : resolvedAreaName ch ≠ "" := toClassName_ne_empty _
  simp only [paintChild, paintChildUnskipped]
  rw [if_neg hne]

theorem foldl_paintChild_eq (children : List GridChild)
    (grid : List (List (Option String))) :
    children.foldl paintChild grid = children.foldl paintChildUnskipped grid := by
  induction children generalizing grid with
  | nil => rfl
  | cons ch rest ih =>
    simp only [List.foldl_cons, paintChild_eq, ih]

/-- A child whose area name normalizes from blank: `areaName` missing and
`name` a single space. -/
def blankDemoChild : GridChild where
  id := "b1"
  name := " "
  cells := [⟨0, 0⟩]
  locked := false
  areaName := none
  justifySelf := none
  alignSelf := none

/-- A child with the empty string as its name. -/
def blankDemoChild2 : GridChild where
  id := "b2"
  name := ""
  cells := [⟨0, 0⟩]
  locked := false
  areaName := none
  justifySelf := none
  alignSelf := none

/-- Counterexample to C8 as stated: a child whose area name (name
fallback) is blank is NOT skipped — `toClassName` turns the blank name
into `"child"`, so its cell renders `"child"` in the area matrix, not
`"."` (which the empty child list produces). -/
theorem generateTemplateAreas_blank_cex :
    resolvedAreaName blankDemoChild2 = "child" ∧
    generateTemplateAreas 1 1 [blankDemoChild2] = "\"child\"" ∧
    ¬ generateTemplateAreas 1 1 [blankDemoChild2] = "\".\"" ∧
    generateTemplateAreas 1 1 [] = "\".\"" := by
  decide

/-- Claim C8 as amended.  No child is ever skipped by
`generateTemplateAreas`: the sanitized area name is never empty
(`toClassName` defaults a blank to `"child"`), so the skip branch is dead
and the function equals its guard-free variant; a child whose
area-name-with-name-fallback is blank paints `"child"` over its cells
(shown at a concrete blank-named child: its cell renders `"child"` while
the untouched neighbour cell renders `"."`). -/
theorem generateTemplateAreas_blank_amended (rowCount columnCount : Nat)
    (children : List GridChild) :
    generateTemplateAreas rowCount columnCount children =
      generateTemplateAreasUnskipped rowCount columnCount children ∧
    (∀ s, 1 ≤ (toClassName s).length) ∧
    resolvedAreaName blankDemoChild = "child" ∧
    generateTemplateAreas 1 2 [blankDemoChild] = "\"child .\"" := by
  refine ⟨?_, toClassName_length, by decide, by decide⟩
  simp only [generateTemplateAreas, generateTemplateAreasUnskipped,
    foldl_paintChild_eq]
